import Mathlib

/-!
# Verification of the multi-agent turn-scheduling core

Shallow embedding of the plan-document parser
(`scripts/xml_parsing_tools.py`: `parse_task`, `parse_root_as_task`,
`parse_project_plan`), the schedule builder
(`scripts/agent_chat_tools.py`: `execute_agent_tasks`, agent-order
construction) and the turn selector
(`scripts/agent_chat_tools.py`: `custom_speaker_selection_func`).

Role-name correspondence between the specification and the code:
the spec's *fixer* is the code's `debugger`, the spec's *verifier* is
`tester`, the spec's *implementer* is `coder`; the schedule is the
code's `agent_order` list, the agent-instance list is `ordered_agents`,
and `selectTurn` is `custom_speaker_selection_func` (whose `firstRole`
is the first element of the active-agents list, `agents[0]`).
-/

namespace MultiAgent

/-- A parsed subtask dictionary, as returned by `parse_task`
(`{'description': ..., 'agent': ...}`). -/
structure SubtaskDict where
  description : String
  agent : String
deriving DecidableEq, Repr

/-- The parsed root task dictionary, as returned by `parse_root_as_task`
(`{'name', 'description', 'delegatedTo', 'tasks'}`). -/
structure TaskDict where
  name : String
  description : String
  delegatedTo : List String
  tasks : List SubtaskDict
deriving DecidableEq, Repr

/-- An XML element as seen by `xml.etree.ElementTree`: a tag, an optional
text payload, and a list of direct children.  An element with no text
(`<t/>` or `<t></t>`) has `text = none`, matching ElementTree's `None`. -/
inductive XmlElem where
  | mk (tag : String) (text : Option String) (children : List XmlElem)

/-- The element's tag. -/
def XmlElem.tag : XmlElem → String
  | .mk t _ _ => t

/-- The element's text payload (`None` in Python is `none`). -/
def XmlElem.text : XmlElem → Option String
  | .mk _ x _ => x

/-- The element's direct children. -/
def XmlElem.children : XmlElem → List XmlElem
  | .mk _ _ c => c

/-- `element.find(tag)`: first direct child with the given tag, or `None`. -/
def XmlElem.find (e : XmlElem) (tag : String) : Option XmlElem :=
  e.children.find? (fun c => c.tag == tag)

/-- `element.findall(tag)`: all direct children with the given tag, in order. -/
def XmlElem.findall (e : XmlElem) (tag : String) : List XmlElem :=
  e.children.filter (fun c => c.tag == tag)

/-- `parse_task` (`xml_parsing_tools.py`, lines 74–102): a subtask element
must have `name` and `delegatedTo` children with non-`None` text; otherwise
the function returns `None`. -/
def parse_task (task_element : XmlElem) : Option SubtaskDict :=
  match task_element.find "name", task_element.find "delegatedTo" with
  | some n, some d =>
    match n.text, d.text with
    | some nt, some dt => some { description := nt, agent := dt }
    | _, _ => none
  | _, _ => none

/-- The body of the subtask-collection loop in `parse_root_as_task`
(`xml_parsing_tools.py`, lines 145–148): append the parsed value when it is
not `None`, otherwise keep the accumulator unchanged. -/
def appendIfSome {α β : Type} (f : α → Option β) (acc : List β) (el : α) : List β :=
  match f el with
  | some t => acc ++ [t]
  | none => acc

/-- `parse_root_as_task` (`xml_parsing_tools.py`, lines 104–151): requires
`name` and `description` children with non-`None` text; collects
`delegatedTo/agent` texts that are truthy (non-`None` and non-empty);
collects subtasks from `tasks/task` children, appending `parse_task`'s
result only when it is not `None` (a malformed subtask is skipped). -/
def parse_root_as_task (root_element : XmlElem) : Option TaskDict :=
  match root_element.find "name", root_element.find "description" with
  | some n, some d =>
    match n.text, d.text with
    | some nt, some dt =>
      let delegated :=
        match root_element.find "delegatedTo" with
        | some del =>
          (del.findall "agent").foldl (fun acc a =>
            match a.text with
            | some t => if t ≠ "" then acc ++ [t] else acc
            | none => acc) []
        | none => []
      let parsedTasks :=
        match root_element.find "tasks" with
        | some te => (te.findall "task").foldl (appendIfSome parse_task) []
        | none => []
      some { name := nt, description := dt, delegatedTo := delegated,
             tasks := parsedTasks }
    | _, _ => none
  | _, _ => none

/-- `parse_project_plan` (`xml_parsing_tools.py`, lines 36–74), after the
file has been read and parsed into a root element: rejects a root whose
tag is not `project_plan`, otherwise wraps `parse_root_as_task`'s result
into a singleton list (empty when that result is `None`). -/
def parse_project_plan_root (root : XmlElem) : List TaskDict :=
  if root.tag ≠ "project_plan" then []
  else
    match parse_root_as_task root with
    | some t => [t]
    | none => []

/-- `num_debug_loops` (`agent_chat_tools.py`, line 38): the number of
recovery-cycle repetitions appended to every schedule. -/
def num_debug_loops : Nat := 3

/-- The keys of the `agent_instances` registry dictionary in
`execute_agent_tasks` (`agent_chat_tools.py`, lines 80–85); each key maps
to an agent object whose `name.lower()` equals the key. -/
def agent_instances : List String := ["coder", "project_manager", "tester", "debugger"]

/-- The debug-loop suffix `['tester', 'debugger', 'coder'] * num_debug_loops`
(`agent_chat_tools.py`, line 93): the spec's (verifier, fixer, implementer)
recovery cycle repeated `N` times. -/
def debug_loop : List String :=
  (List.replicate num_debug_loops ["tester", "debugger", "coder"]).flatten

/-- The mutable state threaded through `execute_agent_tasks`' subtask loop
(`agent_chat_tools.py`, lines 63–90): the `seen_agents` set (modelled as a
list queried only for membership), the `ordered_agents` instance list
(modelled by each instance's lower-case name), and the `agent_order`
turn schedule. -/
structure BuildState where
  seen : List String
  ordered_agents : List String
  agent_order : List String
deriving DecidableEq, Repr

/-- One iteration of the `for subtask in tasks` loop
(`agent_chat_tools.py`, lines 68–88): lower-case the subtask's agent name,
append it to `agent_order`, and on first sight record it as seen and — when
it is a registry key — append its instance to `ordered_agents`. -/
def processSubtask (s : BuildState) (subtask : SubtaskDict) : BuildState :=
  let agent_name := subtask.agent.toLower
  let s1 : BuildState := { s with agent_order := s.agent_order ++ [agent_name] }
  if agent_name ∈ s1.seen then s1
  else
    let s2 : BuildState := { s1 with seen := agent_name :: s1.seen }
    if agent_name ∈ agent_instances then
      { s2 with ordered_agents := s2.ordered_agents ++ [agent_name] }
    else s2

/-- The schedule-building portion of `execute_agent_tasks`
(`agent_chat_tools.py`, lines 62–95): process every subtask, then append
the `debugger` (seen set, instance list and turn order) when no subtask
mentioned it, then extend the turn order with the debug loop. -/
def buildSchedule (task : TaskDict) : BuildState :=
  let s := task.tasks.foldl processSubtask ⟨[], [], []⟩
  let s1 :=
    if "debugger" ∈ s.seen then s
    else { seen := "debugger" :: s.seen,
           ordered_agents := s.ordered_agents ++ ["debugger"],
           agent_order := s.agent_order ++ ["debugger"] }
  { s1 with agent_order := s1.agent_order ++ debug_loop }

/-- The scheduled candidate role for a given raw message count:
`agent_order[(len(messages) // 3) % len(agent_order)].lower()`
(`agent_chat_tools.py`, lines 235–237). -/
def scheduled_candidate (messages : Nat) (agent_order : List String) : String :=
  (agent_order.getD ((messages / 3) % agent_order.length) "").toLower

/-- `custom_speaker_selection_func` (`agent_chat_tools.py`, lines 215–252),
with agent objects modelled by their names and the message history by its
length.  `none` models a raised exception (indexing or modulo on an empty
`agents` list); the spec's `firstRole` is `agents[0]`, the head of the
active-agents list. -/
def custom_speaker_selection_func (messages : Nat) (agent_order : List String)
    (agents : List String) : Option String :=
  if messages = 0 then
    agents.head?
  else if agent_order.isEmpty then
    agents.get? ((messages / 3) % agents.length)
  else
    match agents.head? with
    | none => none
    | some fallback =>
      let agent_name := scheduled_candidate messages agent_order
      some (((agents.find? (fun agent => agent.toLower == agent_name))).getD fallback)

end MultiAgent





namespace MultiAgent

/-- Keep-first de-duplication relative to an already-seen set: the order in
which `execute_agent_tasks`' loop first encounters each agent name.  Used to
state what `ordered_agents` contains. -/
def dedupKeepFirstAux (seen : List String) : List String → List String
  | [] => []
  | a :: l => if a ∈ seen then dedupKeepFirstAux seen l else a :: dedupKeepFirstAux (a :: seen) l

/-- Keep-first de-duplication of a list of agent names. -/
def dedupKeepFirst (l : List String) : List String :=
  dedupKeepFirstAux [] l

/-- A well-formed subtask element: `<task><name>good task</name>
<delegatedTo>coder</delegatedTo></task>`. -/
def c1_good_subtask : XmlElem :=
  .mk "task" none [.mk "name" (some "good task") [], .mk "delegatedTo" (some "coder") []]

/-- A malformed subtask element missing its `delegatedTo` (role) child:
`<task><name>bad task</name></task>`. -/
def c1_bad_subtask : XmlElem :=
  .mk "task" none [.mk "name" (some "bad task") []]

/-- The root name element of the C1 document. -/
def c1_name_elem : XmlElem := .mk "name" (some "Plan") []

/-- The root description element of the C1 document. -/
def c1_desc_elem : XmlElem := .mk "description" (some "Desc") []

/-- The subtask-list element of the C1 document: one well-formed subtask
followed by one subtask missing its role. -/
def c1_tasks_elem : XmlElem := .mk "tasks" none [c1_good_subtask, c1_bad_subtask]

/-- A plan document with a valid non-empty root name and description, one
well-formed subtask and one subtask missing its role. -/
def c1_doc : XmlElem :=
  .mk "project_plan" none [c1_name_elem, c1_desc_elem, c1_tasks_elem]

/-- The concrete scenario task of the spec: subtasks
`[(desc="design", role="planner"), (desc="implement", role="coder")]`. -/
def c7_task : TaskDict :=
  { name := "n", description := "d", delegatedTo := [],
    tasks := [⟨"design", "planner"⟩, ⟨"implement", "coder"⟩] }

/-- An active-roles list for the concrete scenario, with the designated
starting role `planner` first (the code takes `firstRole` to be `agents[0]`). -/
def c7_agents : List String := ["planner", "coder", "debugger"]

end MultiAgent

namespace MultiAgent

/-! ## Helper lemmas -/

/-- `String.toLower` unfolded to a list map over the string's characters,
so that concrete instances reduce by `rfl`. -/
theorem toLower_eval (s : String) : s.toLower = ⟨s.data.map Char.toLower⟩ :=
  String.map_eq _ _

/-- `Char.toLower` on an ASCII upper-case letter shifts it down by 32. -/
theorem char_toLower_of_upper (c : Char) (h : 65 ≤ c.toNat ∧ c.toNat ≤ 90) :
    c.toLower = Char.ofNat (c.toNat + 32) := by
  unfold Char.toLower
  exact if_pos h

/-- `Char.toLower` fixes any character that is not an ASCII upper-case letter. -/
theorem char_toLower_of_not_upper (c : Char) (h : ¬(65 ≤ c.toNat ∧ c.toNat ≤ 90)) :
    c.toLower = c := by
  unfold Char.toLower
  exact if_neg h

/-- `Char.toLower` is idempotent. -/
theorem char_toLower_idem (c : Char) : c.toLower.toLower = c.toLower := by
  by_cases h : 65 ≤ c.toNat ∧ c.toNat ≤ 90
  · rw [char_toLower_of_upper c h]
    obtain ⟨h1, h2⟩ := h
    generalize c.toNat = n at h1 h2
    interval_cases n <;> decide
  · rw [char_toLower_of_not_upper c h, char_toLower_of_not_upper c h]

/-- `String.toLower` is idempotent: lower-cased names are fixed points. -/
theorem string_toLower_idem (s : String) : s.toLower.toLower = s.toLower := by
  rw [toLower_eval, toLower_eval]
  simp [List.map_map, Function.comp_def, char_toLower_idem]

/-- One loop iteration always appends the lower-cased agent name to the
turn order, whatever the seen set says. -/
theorem processSubtask_agent_order (s : BuildState) (st : SubtaskDict) :
    (processSubtask s st).agent_order = s.agent_order ++ [st.agent.toLower] := by
  unfold processSubtask
  by_cases h : st.agent.toLower ∈ s.seen
  · simp [h]
  · by_cases h2 : st.agent.toLower ∈ agent_instances <;> simp [h, h2]

/-- One loop iteration adds the lower-cased agent name to the seen set
exactly when it was not already there. -/
theorem processSubtask_seen (s : BuildState) (st : SubtaskDict) :
    (processSubtask s st).seen =
      if st.agent.toLower ∈ s.seen then s.seen else st.agent.toLower :: s.seen := by
  unfold processSubtask
  by_cases h : st.agent.toLower ∈ s.seen
  · simp [h]
  · by_cases h2 : st.agent.toLower ∈ agent_instances <;> simp [h, h2]

/-- One loop iteration appends the agent's instance exactly when the name is
new and is a registry key. -/
theorem processSubtask_ordered (s : BuildState) (st : SubtaskDict) :
    (processSubtask s st).ordered_agents =
      if st.agent.toLower ∉ s.seen ∧ st.agent.toLower ∈ agent_instances
      then s.ordered_agents ++ [st.agent.toLower] else s.ordered_agents := by
  unfold processSubtask
  by_cases h : st.agent.toLower ∈ s.seen
  · simp [h]
  · by_cases h2 : st.agent.toLower ∈ agent_instances <;> simp [h, h2]

/-- The subtask loop appends exactly the lower-cased subtask roles, in
order, to the turn order. -/
theorem fold_agent_order (l : List SubtaskDict) (s : BuildState) :
    (l.foldl processSubtask s).agent_order =
      s.agent_order ++ l.map (fun st => st.agent.toLower) := by
  induction l generalizing s with
  | nil => simp
  | cons st rest ih =>
    rw [List.foldl_cons, ih, processSubtask_agent_order]
    simp

/-- Membership in the seen set after the subtask loop: an agent name was
seen exactly when it was seen before or occurs (lower-cased) among the
subtasks. -/
theorem fold_seen_mem (l : List SubtaskDict) (s : BuildState) (a : String) :
    a ∈ (l.foldl processSubtask s).seen ↔
      a ∈ s.seen ∨ a ∈ l.map (fun st => st.agent.toLower) := by
  induction l generalizing s with
  | nil => simp
  | cons st rest ih =>
    rw [List.foldl_cons, ih, processSubtask_seen]
    by_cases h : st.agent.toLower ∈ s.seen
    · rw [if_pos h]
      simp only [List.map_cons, List.mem_cons]
      constructor
      · rintro (h1 | h1)
        · exact Or.inl h1
        · exact Or.inr (Or.inr h1)
      · rintro (h1 | h1 | h1)
        · exact Or.inl h1
        · exact Or.inl (h1 ▸ h)
        · exact Or.inr h1
    · rw [if_neg h]
      simp only [List.mem_cons, List.map_cons]
      tauto

/-- The subtask loop appends to the instance list exactly the keep-first
new names that are registry keys, in first-occurrence order. -/
theorem fold_ordered (l : List SubtaskDict) (s : BuildState) :
    (l.foldl processSubtask s).ordered_agents =
      s.ordered_agents ++
        (dedupKeepFirstAux s.seen (l.map (fun st => st.agent.toLower))).filter
          (fun a => decide (a ∈ agent_instances)) := by
  induction l generalizing s with
  | nil => simp [dedupKeepFirstAux]
  | cons st rest ih =>
    rw [List.foldl_cons, ih, processSubtask_ordered, processSubtask_seen]
    simp only [List.map_cons, dedupKeepFirstAux]
    by_cases h : st.agent.toLower ∈ s.seen
    · rw [if_pos h, if_pos h, if_neg (by simp [h])]
    · rw [if_neg h, if_neg h]
      by_cases h2 : st.agent.toLower ∈ agent_instances
      · rw [if_pos ⟨h, h2⟩]
        simp [h2, List.filter_cons]
      · rw [if_neg (by tauto)]
        simp [h2, List.filter_cons]

/-- Every element produced by keep-first de-duplication is new relative to
the seen set and comes from the input list. -/
theorem dedupKeepFirstAux_mem (l : List String) (seen : List String) (a : String)
    (h : a ∈ dedupKeepFirstAux seen l) : a ∉ seen ∧ a ∈ l := by
  induction l generalizing seen with
  | nil => simp [dedupKeepFirstAux] at h
  | cons b rest ih =>
    rw [dedupKeepFirstAux] at h
    by_cases hb : b ∈ seen
    · rw [if_pos hb] at h
      obtain ⟨h1, h2⟩ := ih seen h
      exact ⟨h1, List.mem_cons_of_mem _ h2⟩
    · rw [if_neg hb] at h
      rcases List.mem_cons.mp h with h1 | h1
      · exact ⟨h1 ▸ hb, h1 ▸ List.mem_cons_self _ _⟩
      · obtain ⟨h1, h2⟩ := ih (b :: seen) h1
        exact ⟨fun hc => h1 (List.mem_cons_of_mem _ hc), List.mem_cons_of_mem _ h2⟩

/-- Keep-first de-duplication yields a duplicate-free list. -/
theorem dedupKeepFirstAux_nodup (l : List String) (seen : List String) :
    (dedupKeepFirstAux seen l).Nodup := by
  induction l generalizing seen with
  | nil => simp [dedupKeepFirstAux]
  | cons b rest ih =>
    rw [dedupKeepFirstAux]
    by_cases hb : b ∈ seen
    · rw [if_pos hb]; exact ih seen
    · rw [if_neg hb]
      refine List.nodup_cons.mpr ⟨fun hc => ?_, ih (b :: seen)⟩
      exact (dedupKeepFirstAux_mem rest (b :: seen) b hc).1 (List.mem_cons_self _ _)

/-- The accumulator-appending fold used by `parse_root_as_task` is a
`filterMap`. -/
theorem foldl_append_filterMap {α β : Type} (f : α → Option β) (l : List α) (acc : List β) :
    l.foldl (appendIfSome f) acc = acc ++ l.filterMap f := by
  induction l generalizing acc with
  | nil => simp
  | cons b rest ih =>
    rw [List.foldl_cons, ih]
    unfold appendIfSome
    cases hb : f b <;> simp [List.filterMap_cons, hb]

end MultiAgent

namespace MultiAgent

/-- Full characterization of the turn order produced by the schedule
builder: the lower-cased subtask roles in order, then the `debugger`
exactly when no subtask mentioned it, then the debug loop. -/
theorem buildSchedule_agent_order (t : TaskDict) :
    (buildSchedule t).agent_order =
      t.tasks.map (fun st => st.agent.toLower) ++
        (if "debugger" ∈ t.tasks.map (fun st => st.agent.toLower) then [] else ["debugger"]) ++
        debug_loop := by
  have hseen : ("debugger" ∈ (t.tasks.foldl processSubtask ⟨[], [], []⟩).seen) ↔
      "debugger" ∈ t.tasks.map (fun st => st.agent.toLower) := by
    rw [fold_seen_mem]; simp
  have horder := fold_agent_order t.tasks ⟨[], [], []⟩
  by_cases h : "debugger" ∈ t.tasks.map (fun st => st.agent.toLower)
  · simp only [buildSchedule, hseen.mpr h, if_true, if_pos h, horder]
    simp
  · simp only [buildSchedule, if_neg (fun hc => h (hseen.mp hc)), if_neg h, horder]
    simp

/-- Full characterization of the agent-instance list produced by the
schedule builder: the keep-first registry roles of the subtasks in
first-occurrence order, then the `debugger` instance exactly when no
subtask mentioned it. -/
theorem buildSchedule_ordered_agents (t : TaskDict) :
    (buildSchedule t).ordered_agents =
      (dedupKeepFirst (t.tasks.map (fun st => st.agent.toLower))).filter
          (fun a => decide (a ∈ agent_instances)) ++
        (if "debugger" ∈ t.tasks.map (fun st => st.agent.toLower) then [] else ["debugger"]) := by
  have hseen : ("debugger" ∈ (t.tasks.foldl processSubtask ⟨[], [], []⟩).seen) ↔
      "debugger" ∈ t.tasks.map (fun st => st.agent.toLower) := by
    rw [fold_seen_mem]; simp
  have hord := fold_ordered t.tasks ⟨[], [], []⟩
  by_cases h : "debugger" ∈ t.tasks.map (fun st => st.agent.toLower)
  · simp only [buildSchedule, hseen.mpr h, if_true, if_pos h, hord]
    simp [dedupKeepFirst]
  · simp only [buildSchedule, if_neg (fun hc => h (hseen.mp hc)), if_neg h, hord]
    simp [dedupKeepFirst]

end MultiAgent

namespace MultiAgent

/-! ## Claim theorems -/

/-- C1 counterexample: on a plan document with valid root name and
description, one well-formed subtask and one subtask missing its role,
`parse_root_as_task` does NOT fail: it returns a Task keeping only the
well-formed subtask, refuting the claimed whole-parse failure. -/
theorem C1_counterexample :
    parse_task c1_good_subtask = some ⟨"good task", "coder"⟩ ∧
    parse_task c1_bad_subtask = none ∧
    parse_root_as_task c1_doc ≠ none ∧
    parse_root_as_task c1_doc =
      some { name := "Plan", description := "Desc", delegatedTo := [],
             tasks := [⟨"good task", "coder"⟩] } :=
  ⟨rfl, rfl, by decide, rfl⟩

/-- C1 (amended): for every plan document whose root has `name` and
`description` children with text and a `tasks` child, `parse_root_as_task`
succeeds, returning a Task whose subtask list contains exactly the
well-formed subtask entries in order — a malformed subtask is silently
skipped, not a whole-parse failure. -/
theorem C1_parse_skips_malformed_subtasks (root te n d : XmlElem) (nt dt : String)
    (hn : root.find "name" = some n) (hnt : n.text = some nt)
    (hd : root.find "description" = some d) (hdt : d.text = some dt)
    (ht : root.find "tasks" = some te) :
    ∃ task : TaskDict, parse_root_as_task root = some task ∧
      task.name = nt ∧ task.description = dt ∧
      task.tasks = (te.findall "task").filterMap parse_task := by
  unfold parse_root_as_task
  rw [hn, hd]
  dsimp only
  rw [hnt, hdt]
  dsimp only
  rw [ht]
  dsimp only
  have hfm : (te.findall "task").foldl (appendIfSome parse_task) [] =
      (te.findall "task").filterMap parse_task := by
    simpa using foldl_append_filterMap parse_task (te.findall "task") []
  exact ⟨_, rfl, rfl, rfl, hfm⟩

end MultiAgent

namespace MultiAgent

/-- C1 witness: the amended claim instantiated at the concrete document
with one well-formed and one malformed subtask. -/
theorem C1_parse_skips_malformed_subtasks_witness :
    ∃ task : TaskDict, parse_root_as_task c1_doc = some task ∧
      task.name = "Plan" ∧ task.description = "Desc" ∧
      task.tasks = (c1_tasks_elem.findall "task").filterMap parse_task :=
  C1_parse_skips_malformed_subtasks c1_doc c1_tasks_elem c1_name_elem c1_desc_elem
    "Plan" "Desc" rfl rfl rfl rfl rfl

end MultiAgent

namespace MultiAgent

/-- C2: for elapsedMessages ≥ 1 and a non-empty schedule, whenever some
active agent's lower-cased name equals the scheduled candidate
`agent_order[(messages / 3) % len(agent_order)].lower()`, the selector
returns an agent carrying exactly that scheduled role. -/
theorem C2_scheduled_role_selected (messages : Nat) (agent_order agents : List String)
    (h1 : 1 ≤ messages) (h2 : agent_order ≠ [])
    (h3 : ∃ a ∈ agents, a.toLower = scheduled_candidate messages agent_order) :
    ∃ a, custom_speaker_selection_func messages agent_order agents = some a ∧
      a.toLower = scheduled_candidate messages agent_order := by
  obtain ⟨w, hw, hwl⟩ := h3
  have hne : messages ≠ 0 := by omega
  cases agents with
  | nil => simp at hw
  | cons b bs =>
    have hfind : ((b :: bs).find? (fun agent =>
        agent.toLower == scheduled_candidate messages agent_order)).isSome := by
      rw [List.find?_isSome]
      exact ⟨w, hw, by simp [hwl]⟩
    obtain ⟨a, ha⟩ := Option.isSome_iff_exists.mp hfind
    refine ⟨a, ?_, ?_⟩
    · unfold custom_speaker_selection_func
      rw [if_neg hne, if_neg (by simp [h2])]
      simp [ha]
    · have := List.find?_some ha
      simpa using this

/-- C3: with a non-empty schedule and non-empty active agents, if no active
agent carries the scheduled candidate role the selector returns the first
active agent, and in every case (all elapsedMessages ≥ 0) it returns some
member of the active agents and never errors. -/
theorem C3_fallback_safety (messages : Nat) (agent_order agents : List String)
    (h2 : agent_order ≠ []) (h3 : agents ≠ []) :
    ((∀ a ∈ agents, a.toLower ≠ scheduled_candidate messages agent_order) →
        custom_speaker_selection_func messages agent_order agents = agents.head?) ∧
      ∃ r ∈ agents, custom_speaker_selection_func messages agent_order agents = some r := by
  cases agents with
  | nil => exact absurd rfl h3
  | cons b bs =>
    by_cases hm : messages = 0
    · subst hm
      exact ⟨fun _ => rfl, ⟨b, List.mem_cons_self _ _, rfl⟩⟩
    · constructor
      · intro hall
        have hnone : (b :: bs).find? (fun agent =>
            agent.toLower == scheduled_candidate messages agent_order) = none := by
          rw [List.find?_eq_none]
          intro x hx
          simp [hall x hx]
        unfold custom_speaker_selection_func
        rw [if_neg hm, if_neg (by simp [h2])]
        simp [hnone]
      · cases hfind : (b :: bs).find? (fun agent =>
            agent.toLower == scheduled_candidate messages agent_order) with
        | none =>
          refine ⟨b, List.mem_cons_self _ _, ?_⟩
          unfold custom_speaker_selection_func
          rw [if_neg hm, if_neg (by simp [h2])]
          simp [hfind]
        | some a =>
          refine ⟨a, List.mem_of_find?_eq_some hfind, ?_⟩
          unfold custom_speaker_selection_func
          rw [if_neg hm, if_neg (by simp [h2])]
          simp [hfind]

/-- C4: with zero elapsed messages the selector returns the designated
starting role — the code's `firstRole`, which is the head of the
active-agents list — unconditionally, independent of the schedule. -/
theorem C4_first_turn (agent_order agents : List String) :
    custom_speaker_selection_func 0 agent_order agents = agents.head? := rfl

end MultiAgent

namespace MultiAgent

/-- C2 witness: at 3 elapsed messages with schedule (planner, coder), the
scheduled candidate is coder and the selector picks the active coder. -/
theorem C2_scheduled_role_selected_witness :
    ∃ a, custom_speaker_selection_func 3 ["planner", "coder"] ["coder", "tester"] = some a ∧
      a.toLower = scheduled_candidate 3 ["planner", "coder"] :=
  C2_scheduled_role_selected 3 ["planner", "coder"] ["coder", "tester"] (by decide)
    (by decide) ⟨"coder", by decide, by simp [scheduled_candidate, toLower_eval]⟩

/-- C3 witness: with schedule (ghost) naming no active agent, the selector
falls back to the first active agent and still returns an active agent. -/
theorem C3_fallback_safety_witness :
    custom_speaker_selection_func 3 ["ghost"] ["coder", "tester"] =
        (["coder", "tester"] : List String).head? ∧
      ∃ r ∈ (["coder", "tester"] : List String),
        custom_speaker_selection_func 3 ["ghost"] ["coder", "tester"] = some r := by
  have h := C3_fallback_safety 3 ["ghost"] ["coder", "tester"] (by decide) (by decide)
  refine ⟨h.1 ?_, h.2⟩
  intro a ha
  fin_cases ha <;> simp [scheduled_candidate, toLower_eval]

end MultiAgent

namespace MultiAgent

/-- C5: for every Task the built turn order ends with the debug loop — the
three-role sequence (tester, debugger, coder), i.e. the spec's (verifier,
fixer, implementer), repeated `num_debug_loops` times (default 3), giving
exactly `3 × num_debug_loops` trailing entries regardless of how often
those roles already occur earlier. -/
theorem C5_recovery_suffix (task : TaskDict) :
    ∃ pre, (buildSchedule task).agent_order = pre ++ debug_loop ∧
      debug_loop = (List.replicate num_debug_loops ["tester", "debugger", "coder"]).flatten ∧
      debug_loop.length = 3 * num_debug_loops :=
  ⟨_, buildSchedule_agent_order task, rfl, by decide⟩

/-- C6: the recovery role `debugger` (the spec's fixer) appears in every
built turn order; when no subtask's lower-cased role is `debugger`, the
turn order is exactly the subtask roles, then one appended `debugger`,
then the debug loop. -/
theorem C6_recovery_role_present (task : TaskDict) :
    "debugger" ∈ (buildSchedule task).agent_order ∧
      ((∀ st ∈ task.tasks, st.agent.toLower ≠ "debugger") →
        (buildSchedule task).agent_order =
          task.tasks.map (fun st => st.agent.toLower) ++ ["debugger"] ++ debug_loop) := by
  rw [buildSchedule_agent_order]
  constructor
  · have : "debugger" ∈ debug_loop := by decide
    simp [this]
  · intro h
    have hnot : "debugger" ∉ task.tasks.map (fun st => st.agent.toLower) := by
      simp only [List.mem_map]
      rintro ⟨st, hst, he⟩
      exact h st hst he
    rw [if_neg hnot]

/-- C6 witness: the scenario task mentions only planner and coder, so the
debugger is appended once between the subtask roles and the debug loop. -/
theorem C6_recovery_role_present_witness :
    "debugger" ∈ (buildSchedule c7_task).agent_order ∧
      (buildSchedule c7_task).agent_order =
        c7_task.tasks.map (fun st => st.agent.toLower) ++ ["debugger"] ++ debug_loop := by
  have h := C6_recovery_role_present c7_task
  refine ⟨h.1, h.2 ?_⟩
  intro st hst
  fin_cases hst <;> simp [toLower_eval]

end MultiAgent

namespace MultiAgent

/-- C7: the concrete scenario — subtasks (design, planner) and
(implement, coder) with `num_debug_loops = 3` — yields the 12-entry turn
order (planner, coder, debugger, tester, debugger, coder, tester,
debugger, coder, tester, debugger, coder), i.e. the spec's (planner,
coder, fixer, verifier, fixer, implementer, ...); with the active agents
(planner, coder, debugger), whose head is the starting role, the selector
returns planner at 0 elapsed messages, the index-1 entry coder at 3, and
the index-2 entry debugger (the fixer) at 6. -/
theorem C7_concrete_scenario :
    (buildSchedule c7_task).agent_order =
        ["planner", "coder", "debugger", "tester", "debugger", "coder",
         "tester", "debugger", "coder", "tester", "debugger", "coder"] ∧
      custom_speaker_selection_func 0 (buildSchedule c7_task).agent_order c7_agents =
        some "planner" ∧
      custom_speaker_selection_func 3 (buildSchedule c7_task).agent_order c7_agents =
        some "coder" ∧
      custom_speaker_selection_func 6 (buildSchedule c7_task).agent_order c7_agents =
        some "debugger" := by
  refine ⟨?_, rfl, ?_, ?_⟩ <;>
    simp [custom_speaker_selection_func, scheduled_candidate, buildSchedule, processSubtask,
      toLower_eval, c7_task, c7_agents, debug_loop, num_debug_loops, agent_instances]

/-- C8: the schedule builder is a pure function of the Task's subtask
sequence — equal subtask lists give identical build results — and every
role in the built turn order is lower-cased (a fixed point of toLower). -/
theorem C8_build_deterministic (t1 t2 : TaskDict) (h : t1.tasks = t2.tasks) :
    buildSchedule t1 = buildSchedule t2 ∧
      ∀ r ∈ (buildSchedule t1).agent_order, r.toLower = r := by
  constructor
  · unfold buildSchedule
    rw [h]
  · intro r hr
    rw [buildSchedule_agent_order] at hr
    simp only [List.mem_append] at hr
    rcases hr with (hr | hr) | hr
    · obtain ⟨st, _, rfl⟩ := List.mem_map.mp hr
      exact string_toLower_idem _
    · have : r = "debugger" := by
        rcases Classical.em ("debugger" ∈ t1.tasks.map (fun st => st.agent.toLower)) with hc | hc
        · rw [if_pos hc] at hr; simp at hr
        · rw [if_neg hc] at hr; simpa using hr
      subst this
      rw [toLower_eval]; rfl
    · have : r = "tester" ∨ r = "debugger" ∨ r = "coder" := by
        have := hr
        simp only [debug_loop, num_debug_loops, List.replicate, List.flatten,
          List.mem_append, List.mem_cons, List.not_mem_nil, or_false] at this
        tauto
      rcases this with rfl | rfl | rfl <;> (rw [toLower_eval]; rfl)

/-- C8 witness: the determinism and lower-casing facts at the concrete
scenario task. -/
theorem C8_build_deterministic_witness :
    buildSchedule c7_task = buildSchedule c7_task ∧
      ∀ r ∈ (buildSchedule c7_task).agent_order, r.toLower = r :=
  C8_build_deterministic c7_task c7_task rfl

/-- C9: with at least one prior message, a non-empty active-agents list and
an empty schedule, the selector neither raises nor divides by zero: it
returns the active agent at index `(messages / 3) % len(agents)` and the
result is always present. -/
theorem C9_empty_schedule_round_robin (messages : Nat) (agents : List String)
    (h1 : 1 ≤ messages) (h2 : agents ≠ []) :
    custom_speaker_selection_func messages [] agents =
        agents.get? ((messages / 3) % agents.length) ∧
      (custom_speaker_selection_func messages [] agents).isSome := by
  have hne : messages ≠ 0 := by omega
  have heq : custom_speaker_selection_func messages [] agents =
      agents.get? ((messages / 3) % agents.length) := by
    unfold custom_speaker_selection_func
    rw [if_neg hne]
    simp
  refine ⟨heq, ?_⟩
  rw [heq]
  have hlt : (messages / 3) % agents.length < agents.length :=
    Nat.mod_lt _ (List.length_pos.mpr h2)
  rw [List.get?_eq_getElem?, List.getElem?_eq_getElem hlt]
  rfl

/-- C9 witness: 7 elapsed messages, three active agents, empty schedule:
index (7 / 3) % 3 = 2 selects the third agent. -/
theorem C9_empty_schedule_round_robin_witness :
    custom_speaker_selection_func 7 [] ["a", "b", "c"] = some "c" ∧
      (custom_speaker_selection_func 7 [] ["a", "b", "c"]).isSome := by
  have h := C9_empty_schedule_round_robin 7 ["a", "b", "c"] (by decide) (by decide)
  exact ⟨h.1.trans rfl, h.2⟩

end MultiAgent

namespace MultiAgent

/-- Every registry key is already lower-case. -/
theorem agent_instances_lower_fixed (a : String) (h : a ∈ agent_instances) :
    a.toLower = a := by
  fin_cases h <;> (rw [toLower_eval]; rfl)

/-- C10: the built agent-instance list holds each agent at most once, only
registry roles contribute an instance, the list is exactly the keep-first
registry roles of the subtasks (in first-occurrence order) followed by the
appended debugger when absent; and at selection time any scheduled role
outside the registry finds no matching agent, so the selector resolves it
through the first-active-agent fallback. -/
theorem C10_instance_registry (task : TaskDict) :
    (buildSchedule task).ordered_agents =
        (dedupKeepFirst (task.tasks.map (fun st => st.agent.toLower))).filter
            (fun a => decide (a ∈ agent_instances)) ++
          (if "debugger" ∈ task.tasks.map (fun st => st.agent.toLower) then []
           else ["debugger"]) ∧
      (buildSchedule task).ordered_agents.Nodup ∧
      (∀ a ∈ (buildSchedule task).ordered_agents, a ∈ agent_instances) ∧
      ∀ messages, 1 ≤ messages →
        scheduled_candidate messages (buildSchedule task).agent_order ∉ agent_instances →
        custom_speaker_selection_func messages (buildSchedule task).agent_order
            (buildSchedule task).ordered_agents =
          (buildSchedule task).ordered_agents.head? := by
  have hchar := buildSchedule_ordered_agents task
  have hreg : ∀ a ∈ (buildSchedule task).ordered_agents, a ∈ agent_instances := by
    intro a ha
    rw [hchar] at ha
    rcases List.mem_append.mp ha with ha | ha
    · exact of_decide_eq_true (List.mem_filter.mp ha).2
    · rcases Classical.em ("debugger" ∈ task.tasks.map (fun st => st.agent.toLower)) with
        hc | hc
      · rw [if_pos hc] at ha; simp at ha
      · rw [if_neg hc] at ha
        simp only [List.mem_singleton] at ha
        subst ha
        decide
  refine ⟨hchar, ?_, hreg, ?_⟩
  · rw [hchar]
    rcases Classical.em ("debugger" ∈ task.tasks.map (fun st => st.agent.toLower)) with
      hc | hc
    · rw [if_pos hc]
      simpa using List.Nodup.filter _ (dedupKeepFirstAux_nodup _ [])
    · rw [if_neg hc]
      rw [List.nodup_append]
      refine ⟨List.Nodup.filter _ (dedupKeepFirstAux_nodup _ []), List.nodup_singleton _, ?_⟩
      intro a ha hb
      simp only [List.mem_singleton] at hb
      subst hb
      exact hc (dedupKeepFirstAux_mem _ _ _ (List.mem_of_mem_filter ha)).2
  · intro messages hm hc
    have hne : messages ≠ 0 := by omega
    have horder : ¬(buildSchedule task).agent_order.isEmpty := by
      rw [buildSchedule_agent_order]
      simp [debug_loop, num_debug_loops]
    cases hag : (buildSchedule task).ordered_agents with
    | nil =>
      unfold custom_speaker_selection_func
      rw [if_neg hne, if_neg horder]
      simp
    | cons b bs =>
      have hfind : (b :: bs).find? (fun agent =>
          agent.toLower == scheduled_candidate messages (buildSchedule task).agent_order) =
            none := by
        rw [List.find?_eq_none]
        intro x hx
        have hxmem : x ∈ (buildSchedule task).ordered_agents := by rw [hag]; exact hx
        have hxreg := hreg x hxmem
        have hxfix := agent_instances_lower_fixed x hxreg
        simp only [beq_iff_eq, hxfix]
        intro he
        exact hc (he ▸ hxreg)
      unfold custom_speaker_selection_func
      rw [if_neg hne, if_neg horder]
      simp [hfind]

/-- C10 witness: in the concrete scenario the instance list is (coder,
debugger) — planner contributes no instance — and at 1 elapsed message the
scheduled planner turn resolves to the fallback first active agent. -/
theorem C10_instance_registry_witness :
    (buildSchedule c7_task).ordered_agents.Nodup ∧
      custom_speaker_selection_func 1 (buildSchedule c7_task).agent_order
          (buildSchedule c7_task).ordered_agents =
        (buildSchedule c7_task).ordered_agents.head? := by
  have h := C10_instance_registry c7_task
  refine ⟨h.2.1, h.2.2.2 1 (by decide) ?_⟩
  have hcand : scheduled_candidate 1 (buildSchedule c7_task).agent_order = "planner" := by
    simp [scheduled_candidate, buildSchedule, processSubtask, toLower_eval, c7_task,
      debug_loop, num_debug_loops, agent_instances]
  rw [hcand]
  decide

end MultiAgent
